import Mathlib

/-!
Runner image resolution (`external/configure.go`) and step lookup (`api/registry.go`)

A shallow embedding of `RunnerParams.getLocalImage` and
`RunnerParams.CheckRegistryImages`, the two functions that pick the local
external-runner image and reconcile it with the image in the remote registry,
and of `WerckerStepRegistry.GetStepVersion`.

Modelling conventions

* Go strings are Lean `String`s; `strings.Contains` is substring search on the
  character sequence.
* `int64` Unix timestamps (`docker.APIImages.Created`) and `time.Time` instants
  (`docker.Image.Created`, the remote image's `Created`) are `Int`; they are
  only ever compared, never added.
* The Docker client is a record of the two answers the code asks it for
  (`ListImages`, `InspectImage`); errors are `Except String`.
* `cp *RunnerParams` is mutated in place by the Go code; here every function
  returns the parameters it leaves behind.
* `cp.Logger.Fatal` logs and terminates the process (logrus semantics); a run
  that reaches it ends in a `Fatal` or `Unresolvable` decision.
-/

set_option autoImplicit false

namespace strings

/-- Go `strings.HasPrefix` on character lists. -/
def hasPrefixChars : List Char → List Char → Bool
  | _, [] => true
  | [], _ :: _ => false
  | c :: cs, p :: ps => c == p && hasPrefixChars cs ps

/-- Substring search on character lists: does `sub` occur in `s`? -/
def containsChars : List Char → List Char → Bool
  | [], sub => sub.isEmpty
  | c :: cs, sub => hasPrefixChars (c :: cs) sub || containsChars cs sub

/-- Go `strings.Contains(s, substr)`. -/
def Contains (s substr : String) : Bool :=
  containsChars s.data substr.data

end strings

namespace docker

/-- The fields of `docker.APIImages` (an entry of `ListImages`) that are read. -/
structure APIImages where
  RepoTags : List String
  Created : Int
  deriving DecidableEq, Repr

/-- The field of `docker.Image` (the answer of `InspectImage`) that is read. -/
structure Image where
  Created : Int
  deriving DecidableEq, Repr

/-- The two calls made on `cp.client`, as the answers they give. -/
structure Client where
  ListImages : Except String (List APIImages)
  InspectImage : String → Except String Image

end docker

/-- The value returned by `cp.getRemoteImage()`: the fields that are read. -/
structure RemoteImage where
  ImageName : String
  Created : Int
  deriving DecidableEq, Repr

/-- The fields of `RunnerParams` read or written by the two functions. -/
structure RunnerParams where
  ProdType : Bool
  OverrideImage : String
  ImageName : String
  PullRemote : Bool
  deriving DecidableEq, Repr

/-- The locals of the first scan of `getLocalImage` (lines 51-68). -/
structure ScanState where
  taggedLatest : String
  latest : Int
  imageName : String
  deriving DecidableEq, Repr

/-- What one call of `getLocalImage` does: the returned pair `(image, err)`,
the parameters left behind, the references passed to `InspectImage`, and the
final value of the local variable `imageName`. -/
structure LocalResult where
  ret : Except String (Option docker.Image)
  cp : RunnerParams
  inspected : List String
  imageName : String

/-- The observable ending of `CheckRegistryImages`.

* `Fetch n`: `return cp.pullNewerImage(n)` (lines 141 and 149);
* `Advise n t`: the three `Info` lines 151-155, then `return nil`;
* `UpToDate n t`: lines 165-167, then `return nil`;
* `Unresolvable`: lines 162-163, `Logger.Fatal` asking for `--pull`;
* `Fatal e`: a `Logger.Fatal` on an error of a collaborator (lines 18, 126, 133). -/
inductive Decision where
  | Fetch (imageName : String)
  | Advise (imageName : String) (created : Int)
  | UpToDate (imageName : String) (created : Int)
  | Unresolvable
  | Fatal (err : String)
  deriving DecidableEq, Repr

/-- The collaborators of `CheckRegistryImages`: the result of
`docker.NewClient(cp.DockerEndpoint)` and the result of `cp.getRemoteImage()`. -/
structure Env where
  NewClient : Except String docker.Client
  getRemoteImage : Except String RemoteImage

namespace RunnerParams

/-- The static string that marks a runner image (line 56). -/
def runnerTag : String := "wercker/wercker-runner:"

/-- The static string of the second scan (line 84). -/
def masterTag : String := "wercker/wercker-runner:master"

/-- An image is a runner image when one of its tags contains the static string. -/
def isRunnerImage (image : docker.APIImages) : Bool :=
  image.RepoTags.any (fun slice => strings.Contains slice runnerTag)

/-- The first tag of the list that contains the static string, if any. -/
def firstRunnerTag (tags : List String) : Option String :=
  tags.find? (fun slice => strings.Contains slice runnerTag)

/-- The inner loop of the first scan (lines 55-67) over the tags of one image
created at `created`; the `break` of line 64 ends the loop. -/
def scanTags (created : Int) : List String → ScanState → ScanState
  | [], st => st
  | slice :: rest, st =>
    if strings.Contains slice runnerTag then
      let st1 : ScanState :=
        if strings.Contains slice ":latest" then { st with taggedLatest := slice } else st
      if st1.latest < created then
        { st1 with latest := created, imageName := slice }
      else
        scanTags created rest st1
    else
      scanTags created rest st

/-- The outer loop of the first scan (lines 54-68). -/
def scanImages : List docker.APIImages → ScanState → ScanState
  | [], st => st
  | image :: rest, st => scanImages rest (scanTags image.Created image.RepoTags st)

/-- The inner loop of the second scan (lines 83-91): the state is the pair
`(latest, imageName)`. -/
def masterTags (created : Int) : List String → Int × String → Int × String
  | [], st => st
  | slice :: rest, st =>
    if strings.Contains slice masterTag then
      if st.1 < created then
        (created, slice)
      else
        masterTags created rest st
    else
      masterTags created rest st

/-- The outer loop of the second scan (lines 82-92). -/
def masterImages : List docker.APIImages → Int × String → Int × String
  | [], st => st
  | image :: rest, st => masterImages rest (masterTags image.Created image.RepoTags st)

/-- Lines 104-108: `InspectImage(cp.ImageName)` and the return of its answer. -/
def inspectSelected (client : docker.Client) (cp : RunnerParams) (imageName : String) :
    LocalResult :=
  match client.InspectImage cp.ImageName with
  | .error e => ⟨.error e, cp, [cp.ImageName], imageName⟩
  | .ok image => ⟨.ok (some image), cp, [cp.ImageName], imageName⟩

/-- The function `getLocalImage` (lines 26-109). -/
def getLocalImage (client : docker.Client) (cp : RunnerParams) : LocalResult :=
  if !cp.ProdType && cp.OverrideImage != "" then
    inspectSelected client cp cp.OverrideImage
  else
    match client.ListImages with
    | .error e => ⟨.error e, cp, [], ""⟩
    | .ok images =>
      let st := scanImages images ⟨"", 0, ""⟩
      if st.imageName == "" then
        ⟨.ok none, cp, [], st.imageName⟩
      else if cp.ProdType then
        if st.taggedLatest != "" then
          inspectSelected client { cp with ImageName := st.taggedLatest } st.imageName
        else
          let st2 := masterImages images (st.latest, "")
          if st2.2 == "" then
            ⟨.ok none, cp, [], st2.2⟩
          else
            inspectSelected client cp st2.2
      else
        inspectSelected client { cp with ImageName := st.imageName } st.imageName

/-- Lines 161-168 of `CheckRegistryImages`: no pull and no advice was due. -/
def reportLocal (cp : RunnerParams) (localImage : Option docker.Image) : Decision :=
  match localImage with
  | none => .Unresolvable
  | some l => .UpToDate cp.ImageName l.Created

/-- Line 144-145: the local image exists, the remote image was created after it
and is not the selected reference. -/
def remoteIsNewer (cp : RunnerParams) (localImage : Option docker.Image)
    (remoteImage : RemoteImage) : Bool :=
  match localImage with
  | none => false
  | some l => decide (l.Created < remoteImage.Created) && remoteImage.ImageName != cp.ImageName

/-- Lines 137-169 of `CheckRegistryImages`: the decision once the local image
(`none` for `nil`) and the remote image are known. -/
def checkImages (cp : RunnerParams) (localImage : Option docker.Image)
    (remoteImage : RemoteImage) : Decision :=
  if remoteImage.ImageName != "" then
    if localImage.isNone && cp.PullRemote then
      .Fetch remoteImage.ImageName
    else if remoteIsNewer cp localImage remoteImage then
      if cp.PullRemote then
        .Fetch remoteImage.ImageName
      else
        .Advise remoteImage.ImageName remoteImage.Created
    else
      reportLocal cp localImage
  else
    reportLocal cp localImage

/-- The function `CheckRegistryImages` (lines 116-170): the decision and the
parameters left behind. -/
def CheckRegistryImages (env : Env) (cp : RunnerParams) : Decision × RunnerParams :=
  match env.NewClient with
  | .error e => (.Fatal e, cp)
  | .ok client =>
    let r := getLocalImage client cp
    match r.ret with
    | .error e => (.Fatal e, r.cp)
    | .ok localImage =>
      match env.getRemoteImage with
      | .error e => (.Fatal e, r.cp)
      | .ok remoteImage => (checkImages r.cp localImage remoteImage, r.cp)

end RunnerParams

/-! ## Predicates used to state the selection properties -/

namespace strings

/-- Go `strings.HasSuffix(s, suffix)`. -/
def HasSuffix (s suffix : String) : Bool :=
  hasPrefixChars s.data.reverse suffix.data.reverse

end strings

namespace RunnerParams

/-- The tests of lines 56-57 together: a runner tag marked latest. -/
def isLatestTag (slice : String) : Bool :=
  strings.Contains slice runnerTag && strings.Contains slice ":latest"

/-- The runner tags marked latest, in listing order (images in the order of
`ListImages`, tags in the order of `RepoTags`). -/
def latestTags (images : List docker.APIImages) : List String :=
  (images.flatMap (fun image => image.RepoTags)).filter isLatestTag

/-- The number of runner tags an image carries. -/
def runnerTagCount (image : docker.APIImages) : Nat :=
  (image.RepoTags.filter (fun slice => strings.Contains slice runnerTag)).length

end RunnerParams

/-! ## Step registry (`api/registry.go`) -/

namespace api

/-- The fields of `http.Response` that `GetStepVersion` reads. -/
structure Response where
  StatusCode : Int
  Body : String
  deriving DecidableEq, Repr

/-- The anonymous struct `stepVersion` of lines 49-57, which the JSON decoder
fills: `step.summary`, `step.tarballUrl` and `step.version.number`. -/
structure StepPayload where
  Summary : String
  TarballURL : String
  Number : String
  deriving DecidableEq, Repr

/-- The fields of `APIStepVersion` set at lines 63-67. -/
structure APIStepVersion where
  Description : String
  TarballURL : String
  Version : String
  deriving DecidableEq, Repr

/-- The errors `GetStepVersion` returns: the error of `util.Get` (line 39),
`&APIError{StatusCode}` (lines 44-46), the error of `Decode` (line 60). -/
inductive StepError where
  | Transport (err : String)
  | APIError (StatusCode : Int)
  | Malformed (err : String)
  deriving DecidableEq, Repr

/-- The struct `WerckerStepRegistry`. -/
structure WerckerStepRegistry where
  baseURL : String
  authToken : String
  deriving DecidableEq, Repr

/-- The collaborators of `GetStepVersion`: `util.Get(url, authToken)` and the
JSON decoding of a response body into the struct of lines 49-57. -/
structure Transport where
  Get : String → String → Except String Response
  Decode : String → Except String StepPayload

/-- What one call of `GetStepVersion` does: the returned pair, the URL that was
requested and the bodies handed to the JSON decoder. -/
structure StepVersionResult where
  ret : Except StepError APIStepVersion
  requested : List String
  decoded : List String

/-- The constant `http.StatusOK`. -/
def StatusOK : Int := 200

/-- The function `GetStepVersion` (lines 34-68). -/
def GetStepVersion (t : Transport) (r : WerckerStepRegistry) (owner name version : String) :
    StepVersionResult :=
  let url := r.baseURL ++ "/api/steps/" ++ owner ++ "/" ++ name ++ "/" ++ version
  match t.Get url r.authToken with
  | .error e => ⟨.error (.Transport e), [url], []⟩
  | .ok resp =>
    if resp.StatusCode != StatusOK then
      ⟨.error (.APIError resp.StatusCode), [url], []⟩
    else
      match t.Decode resp.Body with
      | .error e => ⟨.error (.Malformed e), [url], [resp.Body]⟩
      | .ok stepVersion =>
        ⟨.ok ⟨stepVersion.Summary, stepVersion.TarballURL, stepVersion.Number⟩,
          [url], [resp.Body]⟩

end api

/-! ## Sample inputs -/

namespace Sample

/-- A Docker client whose only local image is a runner image tagged `latest`,
created at 5. -/
def client : docker.Client :=
  { ListImages := .ok [⟨["wercker/wercker-runner:latest"], 5⟩]
    InspectImage := fun _ => .ok ⟨5⟩ }

/-- A Docker client with no local image at all. -/
def emptyClient : docker.Client :=
  { ListImages := .ok []
    InspectImage := fun _ => .error "no such image" }

/-- A remote runner image created at 9. -/
def remote : RemoteImage := ⟨"iad.ocir.io/odx-pipelines/wercker/wercker-runner:v2", 9⟩

/-- Development mode, no override, automatic pull. -/
def devPull : RunnerParams := ⟨false, "", "", true⟩

/-- Development mode, no override, no automatic pull. -/
def devNoPull : RunnerParams := ⟨false, "", "", false⟩

/-- The registry-check scenario: the operator names `img:v1`, which exists
locally, created at 5. -/
def namedV1 : RunnerParams := ⟨false, "img:v1", "img:v1", true⟩

end Sample

/-! ## Helper lemmas -/

namespace RunnerParams

theorem inspectSelected_cp (client : docker.Client) (cp : RunnerParams) (n : String) :
    (inspectSelected client cp n).cp = cp := by
  unfold inspectSelected
  cases client.InspectImage cp.ImageName <;> rfl

theorem inspectSelected_inspected (client : docker.Client) (cp : RunnerParams) (n : String) :
    (inspectSelected client cp n).inspected = [cp.ImageName] := by
  unfold inspectSelected
  cases client.InspectImage cp.ImageName <;> rfl

theorem inspectSelected_ret (client : docker.Client) (cp : RunnerParams) (n : String) :
    (inspectSelected client cp n).ret = (client.InspectImage cp.ImageName).map some := by
  unfold inspectSelected
  cases client.InspectImage cp.ImageName <;> rfl

theorem inspectSelected_imageName (client : docker.Client) (cp : RunnerParams) (n : String) :
    (inspectSelected client cp n).imageName = n := by
  unfold inspectSelected
  cases client.InspectImage cp.ImageName <;> rfl

/-- The call `getLocalImage` never touches `PullRemote`. -/
theorem getLocalImage_PullRemote (client : docker.Client) (cp : RunnerParams) :
    (getLocalImage client cp).cp.PullRemote = cp.PullRemote := by
  unfold getLocalImage
  split
  · rw [inspectSelected_cp]
  · split
    · rfl
    · simp only []
      split
      · rfl
      · split
        · split
          · rw [inspectSelected_cp]
          · split
            · rfl
            · rw [inspectSelected_cp]
        · rw [inspectSelected_cp]

/-- The decision of `CheckRegistryImages` once its three collaborators answered. -/
theorem CheckRegistryImages_eq (env : Env) (cp : RunnerParams) (client : docker.Client)
    (localImage : Option docker.Image) (R : RemoteImage)
    (hc : env.NewClient = .ok client)
    (hl : (getLocalImage client cp).ret = .ok localImage)
    (hr : env.getRemoteImage = .ok R) :
    CheckRegistryImages env cp =
      (checkImages (getLocalImage client cp).cp localImage R, (getLocalImage client cp).cp) := by
  unfold CheckRegistryImages
  simp only [hc, hl, hr]

end RunnerParams

/-! ## Reconciliation (`CheckRegistryImages`) -/

namespace RunnerParams

/-- C1: with a local image `L` and a remote image `R` both present, `R` created
strictly after `L` and `R.ImageName` different from the selected reference,
`CheckRegistryImages` pulls `R` when `PullRemote` is true and only advises about
`R` when `PullRemote` is false. -/
theorem C1_newer_remote_fetch_or_advise (env : Env) (cp : RunnerParams)
    (client : docker.Client) (L : docker.Image) (R : RemoteImage)
    (hc : env.NewClient = .ok client)
    (hl : (getLocalImage client cp).ret = .ok (some L))
    (hr : env.getRemoteImage = .ok R)
    (hpresent : R.ImageName ≠ "")
    (hnewer : L.Created < R.Created)
    (hother : R.ImageName ≠ (getLocalImage client cp).cp.ImageName) :
    (cp.PullRemote = true → (CheckRegistryImages env cp).1 = .Fetch R.ImageName) ∧
    (cp.PullRemote = false →
      (CheckRegistryImages env cp).1 = .Advise R.ImageName R.Created) := by
  rw [CheckRegistryImages_eq env cp client (some L) R hc hl hr]
  have hp := getLocalImage_PullRemote client cp
  constructor
  · intro h
    simp [checkImages, remoteIsNewer, hpresent, hnewer, hother, hp, h]
  · intro h
    simp [checkImages, remoteIsNewer, hpresent, hnewer, hother, hp, h]

/-- C2: with a local image `L` and a remote image `R` both present, if `R` is
not created strictly after `L`, or `R.ImageName` is the selected reference, the
decision is `UpToDate`, whatever `PullRemote` is. -/
theorem C2_not_newer_or_same_reference_up_to_date (env : Env) (cp : RunnerParams)
    (client : docker.Client) (L : docker.Image) (R : RemoteImage)
    (hc : env.NewClient = .ok client)
    (hl : (getLocalImage client cp).ret = .ok (some L))
    (hr : env.getRemoteImage = .ok R)
    (hpresent : R.ImageName ≠ "")
    (hcond : ¬ L.Created < R.Created ∨
      R.ImageName = (getLocalImage client cp).cp.ImageName) :
    (CheckRegistryImages env cp).1 =
      .UpToDate (getLocalImage client cp).cp.ImageName L.Created := by
  rw [CheckRegistryImages_eq env cp client (some L) R hc hl hr]
  rcases hcond with h | h
  · simp [checkImages, remoteIsNewer, reportLocal, hpresent, h]
  · simp [checkImages, remoteIsNewer, reportLocal, hpresent, h]

/-- C3: with no local candidate and a remote image `R` present, the decision is
`Fetch R` when `PullRemote` is true and the fatal `Unresolvable` when it is
false; `R.Created` is unconstrained. -/
theorem C3_no_local_fetch_or_unresolvable (env : Env) (cp : RunnerParams)
    (client : docker.Client) (R : RemoteImage)
    (hc : env.NewClient = .ok client)
    (hl : (getLocalImage client cp).ret = .ok none)
    (hr : env.getRemoteImage = .ok R)
    (hpresent : R.ImageName ≠ "") :
    (cp.PullRemote = true → (CheckRegistryImages env cp).1 = .Fetch R.ImageName) ∧
    (cp.PullRemote = false → (CheckRegistryImages env cp).1 = .Unresolvable) := by
  rw [CheckRegistryImages_eq env cp client none R hc hl hr]
  have hp := getLocalImage_PullRemote client cp
  constructor
  · intro h
    simp [checkImages, hpresent, hp, h]
  · intro h
    simp [checkImages, remoteIsNewer, reportLocal, hpresent, hp, h]

/-- C4: when the remote has no image (`ImageName` empty), for every policy the
decision is `UpToDate` if a local image is present and the fatal `Unresolvable`
if it is absent; it is never a `Fetch`. -/
theorem C4_no_remote_up_to_date_or_unresolvable (env : Env) (cp : RunnerParams)
    (client : docker.Client) (localImage : Option docker.Image) (R : RemoteImage)
    (hc : env.NewClient = .ok client)
    (hl : (getLocalImage client cp).ret = .ok localImage)
    (hr : env.getRemoteImage = .ok R)
    (habsent : R.ImageName = "") :
    (∀ L, localImage = some L → (CheckRegistryImages env cp).1 =
      .UpToDate (getLocalImage client cp).cp.ImageName L.Created) ∧
    (localImage = none → (CheckRegistryImages env cp).1 = .Unresolvable) ∧
    (∀ n, (CheckRegistryImages env cp).1 ≠ .Fetch n) := by
  rw [CheckRegistryImages_eq env cp client localImage R hc hl hr]
  refine ⟨?_, ?_, ?_⟩
  · intro L hL
    subst hL
    simp [checkImages, reportLocal, habsent]
  · intro hL
    subst hL
    simp [checkImages, reportLocal, habsent]
  · intro n
    cases localImage <;> simp [checkImages, reportLocal, habsent]

end RunnerParams

namespace RunnerParams

/-- Witness of C1: a local image created at 5, a remote one created at 9. -/
theorem C1_newer_remote_fetch_or_advise_witness :
    (CheckRegistryImages ⟨.ok Sample.client, .ok Sample.remote⟩ Sample.devPull).1 =
      .Fetch "iad.ocir.io/odx-pipelines/wercker/wercker-runner:v2" ∧
    (CheckRegistryImages ⟨.ok Sample.client, .ok Sample.remote⟩ Sample.devNoPull).1 =
      .Advise "iad.ocir.io/odx-pipelines/wercker/wercker-runner:v2" 9 :=
  ⟨(C1_newer_remote_fetch_or_advise ⟨.ok Sample.client, .ok Sample.remote⟩ Sample.devPull
      Sample.client ⟨5⟩ Sample.remote rfl rfl rfl (by decide) (by decide) (by decide)).1 rfl,
   (C1_newer_remote_fetch_or_advise ⟨.ok Sample.client, .ok Sample.remote⟩ Sample.devNoPull
      Sample.client ⟨5⟩ Sample.remote rfl rfl rfl (by decide) (by decide) (by decide)).2 rfl⟩

/-- Witness of C2: local `img:v1` created at 5, remote `img:v1` created at 9,
automatic pull allowed: up to date. -/
theorem C2_not_newer_or_same_reference_up_to_date_witness :
    (CheckRegistryImages ⟨.ok Sample.client, .ok ⟨"img:v1", 9⟩⟩ Sample.namedV1).1 =
      .UpToDate "img:v1" 5 :=
  C2_not_newer_or_same_reference_up_to_date ⟨.ok Sample.client, .ok ⟨"img:v1", 9⟩⟩
    Sample.namedV1 Sample.client ⟨5⟩ ⟨"img:v1", 9⟩ rfl rfl rfl (by decide) (Or.inr rfl)

/-- Witness of C3: nothing local, a remote image created at 5. -/
theorem C3_no_local_fetch_or_unresolvable_witness :
    (CheckRegistryImages ⟨.ok Sample.emptyClient, .ok ⟨"r:1", 5⟩⟩ Sample.devPull).1 =
      .Fetch "r:1" ∧
    (CheckRegistryImages ⟨.ok Sample.emptyClient, .ok ⟨"r:1", 5⟩⟩ Sample.devNoPull).1 =
      .Unresolvable :=
  ⟨(C3_no_local_fetch_or_unresolvable ⟨.ok Sample.emptyClient, .ok ⟨"r:1", 5⟩⟩ Sample.devPull
      Sample.emptyClient ⟨"r:1", 5⟩ rfl rfl rfl (by decide)).1 rfl,
   (C3_no_local_fetch_or_unresolvable ⟨.ok Sample.emptyClient, .ok ⟨"r:1", 5⟩⟩
      Sample.devNoPull Sample.emptyClient ⟨"r:1", 5⟩ rfl rfl rfl (by decide)).2 rfl⟩

/-- Witness of C4: nothing local and nothing remote, automatic pull allowed. -/
theorem C4_no_remote_up_to_date_or_unresolvable_witness :
    (CheckRegistryImages ⟨.ok Sample.emptyClient, .ok ⟨"", 0⟩⟩ Sample.devPull).1 =
      .Unresolvable :=
  (C4_no_remote_up_to_date_or_unresolvable ⟨.ok Sample.emptyClient, .ok ⟨"", 0⟩⟩
    Sample.devPull Sample.emptyClient none ⟨"", 0⟩ rfl rfl rfl rfl).2.1 rfl

end RunnerParams

/-! ## Candidate selection (`getLocalImage`) -/

namespace RunnerParams

theorem scanTags_taggedLatest (created : Int) (tags : List String) (st : ScanState)
    (h : ∀ tag ∈ tags, strings.Contains tag runnerTag = true →
      strings.Contains tag ":latest" = false) :
    (scanTags created tags st).taggedLatest = st.taggedLatest := by
  induction tags generalizing st with
  | nil => rfl
  | cons slice rest ih =>
    have hrest : ∀ tag ∈ rest, strings.Contains tag runnerTag = true →
        strings.Contains tag ":latest" = false :=
      fun tag ht => h tag (List.mem_cons_of_mem _ ht)
    unfold scanTags
    by_cases hr : strings.Contains slice runnerTag = true
    · have hl := h slice (List.mem_cons_self _ _) hr
      simp only [hr, hl, if_true, Bool.false_eq_true, if_false]
      split
      · rfl
      · exact ih st hrest
    · simp only [hr, if_false]
      exact ih st hrest

theorem scanImages_taggedLatest (images : List docker.APIImages) (st : ScanState)
    (h : ∀ image ∈ images, ∀ tag ∈ image.RepoTags, strings.Contains tag runnerTag = true →
      strings.Contains tag ":latest" = false) :
    (scanImages images st).taggedLatest = st.taggedLatest := by
  induction images generalizing st with
  | nil => rfl
  | cons image rest ih =>
    unfold scanImages
    rw [ih _ (fun im him => h im (List.mem_cons_of_mem _ him))]
    exact scanTags_taggedLatest _ _ _ (h image (List.mem_cons_self _ _))

theorem masterTags_none (created : Int) (tags : List String) (st : Int × String)
    (h : ∀ tag ∈ tags, strings.Contains tag masterTag = false) :
    masterTags created tags st = st := by
  induction tags with
  | nil => rfl
  | cons slice rest ih =>
    unfold masterTags
    simp only [h slice (List.mem_cons_self _ _), Bool.false_eq_true, if_false]
    exact ih (fun tag ht => h tag (List.mem_cons_of_mem _ ht))

theorem masterImages_none (images : List docker.APIImages) (st : Int × String)
    (h : ∀ image ∈ images, ∀ tag ∈ image.RepoTags, strings.Contains tag masterTag = false) :
    masterImages images st = st := by
  induction images with
  | nil => rfl
  | cons image rest ih =>
    unfold masterImages
    rw [masterTags_none _ _ _ (h image (List.mem_cons_self _ _))]
    exact ih (fun im him => h im (List.mem_cons_of_mem _ him))

/-- C5: the code at a list whose only image carries the runner tags `1.0` and
`latest` (in this order), and at a list whose only image is tagged `latest` but
created at 0: production mode selects nothing and inspects nothing, although
exactly one image carries a runner tag marked latest. -/
theorem C5_latest_tag_missed_in_production :
    (getLocalImage
        ⟨.ok [⟨["wercker/wercker-runner:1.0", "wercker/wercker-runner:latest"], 10⟩],
          fun _ => .ok ⟨10⟩⟩ ⟨true, "", "", false⟩).ret = .ok none ∧
    (getLocalImage
        ⟨.ok [⟨["wercker/wercker-runner:1.0", "wercker/wercker-runner:latest"], 10⟩],
          fun _ => .ok ⟨10⟩⟩ ⟨true, "", "", false⟩).inspected = [] ∧
    (getLocalImage
        ⟨.ok [⟨["wercker/wercker-runner:latest"], 0⟩],
          fun _ => .ok ⟨0⟩⟩ ⟨true, "", "", false⟩).ret = .ok none ∧
    (getLocalImage
        ⟨.ok [⟨["wercker/wercker-runner:latest"], 10⟩, ⟨["wercker/wercker-runner:master"], 20⟩],
          fun _ => .ok ⟨10⟩⟩ ⟨true, "", "", false⟩).inspected =
      ["wercker/wercker-runner:latest"] := by
  refine ⟨?_, ?_, ?_, ?_⟩ <;> rfl

/-- C6: the code at a list whose only runner image is tagged `master` (created
at 20, no image tagged `latest`): production mode reports no candidate, it
inspects nothing and leaves `ImageName` empty. -/
theorem C6_master_fallback_selects_nothing :
    (getLocalImage ⟨.ok [⟨["wercker/wercker-runner:master"], 20⟩], fun _ => .ok ⟨20⟩⟩
        ⟨true, "", "", false⟩).ret = .ok none ∧
    (getLocalImage ⟨.ok [⟨["wercker/wercker-runner:master"], 20⟩], fun _ => .ok ⟨20⟩⟩
        ⟨true, "", "", false⟩).inspected = [] ∧
    (getLocalImage ⟨.ok [⟨["wercker/wercker-runner:master"], 20⟩], fun _ => .ok ⟨20⟩⟩
        ⟨true, "", "", false⟩).cp.ImageName = "" := by
  refine ⟨?_, ?_, ?_⟩ <;> rfl

/-- C7: in production mode, when no runner tag of the listed images is marked
latest and no tag is marked master, `getLocalImage` returns no candidate and no
error, inspects no image and leaves the parameters as they were. -/
theorem C7_production_no_latest_no_master (client : docker.Client) (cp : RunnerParams)
    (images : List docker.APIImages)
    (hlist : client.ListImages = .ok images)
    (hprod : cp.ProdType = true)
    (hlatest : ∀ image ∈ images, ∀ tag ∈ image.RepoTags,
      strings.Contains tag runnerTag = true → strings.Contains tag ":latest" = false)
    (hmaster : ∀ image ∈ images, ∀ tag ∈ image.RepoTags,
      strings.Contains tag masterTag = false) :
    (getLocalImage client cp).ret = .ok none ∧
    (getLocalImage client cp).inspected = [] ∧
    (getLocalImage client cp).cp = cp := by
  have h1 : (scanImages images ⟨"", 0, ""⟩).taggedLatest = "" :=
    scanImages_taggedLatest images _ hlatest
  have h2 : ∀ z : Int, masterImages images (z, "") = (z, "") :=
    fun z => masterImages_none images _ hmaster
  unfold getLocalImage
  simp only [hprod, hlist, h1, h2]
  by_cases hn : (scanImages images ⟨"", 0, ""⟩).imageName = "" <;> simp [hn]

/-- Witness of C7: a runner image tagged `1.0` and an unrelated image. -/
theorem C7_production_no_latest_no_master_witness :
    (getLocalImage ⟨.ok [⟨["wercker/wercker-runner:1.0"], 10⟩, ⟨["alpine:latest"], 20⟩],
        fun _ => .ok ⟨10⟩⟩ ⟨true, "", "", false⟩).ret = .ok none ∧
    (getLocalImage ⟨.ok [⟨["wercker/wercker-runner:1.0"], 10⟩, ⟨["alpine:latest"], 20⟩],
        fun _ => .ok ⟨10⟩⟩ ⟨true, "", "", false⟩).inspected = [] ∧
    (getLocalImage ⟨.ok [⟨["wercker/wercker-runner:1.0"], 10⟩, ⟨["alpine:latest"], 20⟩],
        fun _ => .ok ⟨10⟩⟩ ⟨true, "", "", false⟩).cp = ⟨true, "", "", false⟩ :=
  C7_production_no_latest_no_master
    ⟨.ok [⟨["wercker/wercker-runner:1.0"], 10⟩, ⟨["alpine:latest"], 20⟩], fun _ => .ok ⟨10⟩⟩
    ⟨true, "", "", false⟩ [⟨["wercker/wercker-runner:1.0"], 10⟩, ⟨["alpine:latest"], 20⟩]
    rfl rfl (by decide) (by decide)

end RunnerParams

namespace RunnerParams

theorem contains_runnerTag_ne_empty (t : String)
    (h : strings.Contains t runnerTag = true) : t ≠ "" := by
  intro ht
  subst ht
  revert h
  decide

theorem firstRunnerTag_none_iff (image : docker.APIImages) :
    firstRunnerTag image.RepoTags = none ↔ isRunnerImage image = false := by
  simp [firstRunnerTag, isRunnerImage, List.find?_eq_none]

theorem firstRunnerTag_some_runner (image : docker.APIImages) (t : String)
    (h : firstRunnerTag image.RepoTags = some t) :
    isRunnerImage image = true ∧ strings.Contains t runnerTag = true := by
  unfold firstRunnerTag at h
  have h1 := List.find?_some h
  have h2 := List.mem_of_find?_eq_some h
  refine ⟨?_, h1⟩
  unfold isRunnerImage
  rw [List.any_eq_true]
  exact ⟨t, h2, h1⟩

/-- The first scan over the tags of one image without a runner tag changes
neither `latest` nor `imageName`. -/
theorem scanTags_not_runner (created : Int) (tags : List String) (st : ScanState)
    (h : firstRunnerTag tags = none) :
    (scanTags created tags st).latest = st.latest ∧
    (scanTags created tags st).imageName = st.imageName := by
  induction tags generalizing st with
  | nil => exact ⟨rfl, rfl⟩
  | cons slice rest ih =>
    unfold firstRunnerTag at h
    rw [List.find?_cons] at h
    unfold scanTags
    cases hr : strings.Contains slice runnerTag with
    | true => rw [hr] at h; simp at h
    | false =>
      rw [hr] at h
      simp only [Bool.false_eq_true, if_false]
      exact ih st h

/-- The first scan over the tags of one runner image: when the image is newer
than `latest` it records the image's first runner tag, otherwise it changes
neither `latest` nor `imageName`. -/
theorem scanTags_runner (created : Int) (tags : List String) (st : ScanState) (t : String)
    (h : firstRunnerTag tags = some t) :
    (st.latest < created →
      (scanTags created tags st).latest = created ∧
      (scanTags created tags st).imageName = t) ∧
    (¬ st.latest < created →
      (scanTags created tags st).latest = st.latest ∧
      (scanTags created tags st).imageName = st.imageName) := by
  induction tags generalizing st t with
  | nil => simp [firstRunnerTag] at h
  | cons slice rest ih =>
    unfold firstRunnerTag at h
    rw [List.find?_cons] at h
    unfold scanTags
    cases hr : strings.Contains slice runnerTag with
    | true =>
      rw [hr] at h
      simp only [Option.some.injEq] at h
      subst h
      simp only [if_true]
      constructor
      · intro hlt
        by_cases hl : strings.Contains slice ":latest" = true <;> simp [hl, hlt]
      · intro hge
        by_cases hl : strings.Contains slice ":latest" = true
        · simp only [hl, if_true, hge, if_false]
          have h0 : firstRunnerTag rest = none ∨ ∃ u, firstRunnerTag rest = some u := by
            cases firstRunnerTag rest with
            | none => exact Or.inl rfl
            | some u => exact Or.inr ⟨u, rfl⟩
          rcases h0 with h0 | ⟨u, h0⟩
          · exact scanTags_not_runner created rest _ h0
          · exact (ih _ u h0).2 hge
        · simp only [hl, Bool.false_eq_true, if_false, hge]
          have h0 : firstRunnerTag rest = none ∨ ∃ u, firstRunnerTag rest = some u := by
            cases firstRunnerTag rest with
            | none => exact Or.inl rfl
            | some u => exact Or.inr ⟨u, rfl⟩
          rcases h0 with h0 | ⟨u, h0⟩
          · exact scanTags_not_runner created rest _ h0
          · exact (ih _ u h0).2 hge
    | false =>
      rw [hr] at h
      simp only [Bool.false_eq_true, if_false]
      exact ih st t h

end RunnerParams

namespace RunnerParams

/-- One image of the first scan: either `latest` and `imageName` are unchanged
and the image, if it is a runner image, is not newer than `latest`; or the image
is a runner image newer than `latest` and its first runner tag is recorded. -/
theorem scanTags_step (image : docker.APIImages) (st : ScanState) :
    ((scanTags image.Created image.RepoTags st).latest = st.latest ∧
      (scanTags image.Created image.RepoTags st).imageName = st.imageName ∧
      (isRunnerImage image = true → image.Created ≤ st.latest)) ∨
    (∃ t, firstRunnerTag image.RepoTags = some t ∧ st.latest < image.Created ∧
      (scanTags image.Created image.RepoTags st).latest = image.Created ∧
      (scanTags image.Created image.RepoTags st).imageName = t) := by
  cases h : firstRunnerTag image.RepoTags with
  | none =>
    left
    have h1 := scanTags_not_runner image.Created image.RepoTags st h
    have h2 := (firstRunnerTag_none_iff image).1 h
    exact ⟨h1.1, h1.2, fun hr => by rw [h2] at hr; exact absurd hr (by decide)⟩
  | some t =>
    have h1 := scanTags_runner image.Created image.RepoTags st t h
    by_cases hlt : st.latest < image.Created
    · right
      exact ⟨t, rfl, hlt, (h1.1 hlt).1, (h1.1 hlt).2⟩
    · left
      exact ⟨(h1.2 hlt).1, (h1.2 hlt).2, fun _ => not_lt.1 hlt⟩

/-- The first scan: either nothing was recorded and no runner image is newer
than the initial `latest`; or the recorded `imageName` is the first runner tag
of the image at some position `i`, whose `Created` is the largest among the
runner images and strictly larger than that of every runner image before it. -/
theorem scanImages_first_newest (images : List docker.APIImages) (st : ScanState) :
    ((scanImages images st).latest = st.latest ∧
      (scanImages images st).imageName = st.imageName ∧
      (∀ x ∈ images, isRunnerImage x = true → x.Created ≤ st.latest)) ∨
    (∃ (i : Nat) (im : docker.APIImages) (t : String),
      images[i]? = some im ∧ firstRunnerTag im.RepoTags = some t ∧
      (scanImages images st).imageName = t ∧
      (scanImages images st).latest = im.Created ∧
      st.latest < im.Created ∧
      ∀ j x, images[j]? = some x → isRunnerImage x = true →
        x.Created ≤ im.Created ∧ (j < i → x.Created < im.Created)) := by
  induction images generalizing st with
  | nil =>
    left
    exact ⟨rfl, rfl, fun x hx => absurd hx (List.not_mem_nil x)⟩
  | cons image rest ih =>
    unfold scanImages
    rcases scanTags_step image st with ⟨h1, h2, h3⟩ | ⟨t, ht, hlt, h1, h2⟩
    · rcases ih (scanTags image.Created image.RepoTags st) with
        ⟨g1, g2, g3⟩ | ⟨i, im, u, gi, gu, g2, g1, glt, gall⟩
      · left
        refine ⟨g1.trans h1, g2.trans h2, ?_⟩
        intro x hx hr
        rcases List.mem_cons.1 hx with hx | hx
        · subst hx; exact h3 hr
        · rw [← h1]; exact g3 x hx hr
      · right
        refine ⟨i + 1, im, u, ?_, gu, g2, g1, ?_, ?_⟩
        · simpa using gi
        · rw [← h1]; exact glt
        · intro j x hj hr
          cases j with
          | zero =>
            simp only [List.getElem?_cons_zero, Option.some.injEq] at hj
            subst hj
            have := h3 hr
            rw [h1] at glt
            exact ⟨by omega, fun _ => by omega⟩
          | succ j =>
            simp only [List.getElem?_cons_succ] at hj
            have := gall j x hj hr
            exact ⟨this.1, fun hji => this.2 (by omega)⟩
    · rcases ih (scanTags image.Created image.RepoTags st) with
        ⟨g1, g2, g3⟩ | ⟨i, im, u, gi, gu, g2, g1, glt, gall⟩
      · right
        refine ⟨0, image, t, List.getElem?_cons_zero, ht, g2.trans h2, g1.trans h1, hlt, ?_⟩
        intro j x hj hr
        cases j with
        | zero =>
          simp only [List.getElem?_cons_zero, Option.some.injEq] at hj
          subst hj
          exact ⟨le_refl _, fun h => absurd h (Nat.lt_irrefl 0)⟩
        | succ j =>
          simp only [List.getElem?_cons_succ] at hj
          have := g3 x (List.getElem?_mem hj) hr
          rw [h1] at this
          exact ⟨this, fun h => absurd h (Nat.not_lt_zero _)⟩
      · right
        refine ⟨i + 1, im, u, ?_, gu, g2, g1, ?_, ?_⟩
        · simpa using gi
        · rw [h1] at glt; omega
        · intro j x hj hr
          cases j with
          | zero =>
            simp only [List.getElem?_cons_zero, Option.some.injEq] at hj
            subst hj
            rw [h1] at glt
            exact ⟨by omega, fun _ => glt⟩
          | succ j =>
            simp only [List.getElem?_cons_succ] at hj
            have := gall j x hj hr
            exact ⟨this.1, fun hji => this.2 (by omega)⟩

end RunnerParams

namespace RunnerParams

/-- Development mode without override, on a list with a runner image created
after 0: the reference taken is the first runner tag of the image at a position
`i` whose `Created` is the largest among the runner images and strictly larger
than that of every runner image before it. -/
theorem getLocalImage_development (client : docker.Client) (cp : RunnerParams)
    (images : List docker.APIImages)
    (hlist : client.ListImages = .ok images)
    (hdev : cp.ProdType = false)
    (hover : cp.OverrideImage = "")
    (hpos : ∃ image ∈ images, isRunnerImage image = true ∧ 0 < image.Created) :
    ∃ (i : Nat) (im : docker.APIImages) (t : String),
      images[i]? = some im ∧ firstRunnerTag im.RepoTags = some t ∧
      (∀ j x, images[j]? = some x → isRunnerImage x = true →
        x.Created ≤ im.Created ∧ (j < i → x.Created < im.Created)) ∧
      (getLocalImage client cp).cp = { cp with ImageName := t } ∧
      (getLocalImage client cp).inspected = [t] ∧
      (getLocalImage client cp).ret = (client.InspectImage t).map some := by
  rcases scanImages_first_newest images ⟨"", 0, ""⟩ with
    ⟨_, _, g3⟩ | ⟨i, im, t, gi, gt, g2, _, _, gall⟩
  · exfalso
    obtain ⟨image, hmem, hr, hc⟩ := hpos
    have := g3 image hmem hr
    simp only at this
    omega
  · refine ⟨i, im, t, gi, gt, gall, ?_⟩
    have hne : t ≠ "" := contains_runnerTag_ne_empty t (firstRunnerTag_some_runner im t gt).2
    unfold getLocalImage
    simp only [hdev, hover, hlist, g2]
    simp only [bne_self_eq_false, Bool.and_false, Bool.false_eq_true, if_false, beq_iff_eq, hne]
    exact ⟨inspectSelected_cp _ _ _, inspectSelected_inspected _ _ _,
      inspectSelected_ret _ _ _⟩

/-- Two lists that agree, position by position, on `Created` and on being a
runner image have related entries at every position. -/
theorem getElem?_of_same_shape (images images2 : List docker.APIImages)
    (h : images2.map (fun x => (isRunnerImage x, x.Created)) =
      images.map (fun x => (isRunnerImage x, x.Created)))
    (j : Nat) (x : docker.APIImages) (hx : images[j]? = some x) :
    ∃ y, images2[j]? = some y ∧ isRunnerImage y = isRunnerImage x ∧ y.Created = x.Created := by
  have h1 := congrArg (fun l => l[j]?) h
  simp only [List.getElem?_map, hx, Option.map_some'] at h1
  cases hy : images2[j]? with
  | none => rw [hy] at h1; simp at h1
  | some y =>
    rw [hy] at h1
    simp only [Option.map_some', Option.some.injEq, Prod.mk.injEq] at h1
    exact ⟨y, rfl, h1.1, h1.2⟩

end RunnerParams

namespace RunnerParams

/-- C8: in development mode with no override, on a list in which some runner
image has a positive `Created`, `getLocalImage` selects and inspects the first
runner tag of the image at a position `i` such that no runner image is newer
and every runner image before position `i` is strictly older; the position `i`
is the same for every list that agrees with this one on the `Created` values
and on which images are runner images, whatever the tags are. -/
theorem C8_development_selects_first_newest (client : docker.Client) (cp : RunnerParams)
    (images : List docker.APIImages)
    (hlist : client.ListImages = .ok images)
    (hdev : cp.ProdType = false)
    (hover : cp.OverrideImage = "")
    (hpos : ∃ image ∈ images, isRunnerImage image = true ∧ 0 < image.Created) :
    ∃ (i : Nat) (im : docker.APIImages) (t : String),
      images[i]? = some im ∧ firstRunnerTag im.RepoTags = some t ∧
      (∀ j x, images[j]? = some x → isRunnerImage x = true →
        x.Created ≤ im.Created ∧ (j < i → x.Created < im.Created)) ∧
      (getLocalImage client cp).cp = { cp with ImageName := t } ∧
      (getLocalImage client cp).inspected = [t] ∧
      (getLocalImage client cp).ret = (client.InspectImage t).map some ∧
      (∀ (client2 : docker.Client) (images2 : List docker.APIImages),
        client2.ListImages = .ok images2 →
        images2.map (fun x => (isRunnerImage x, x.Created)) =
          images.map (fun x => (isRunnerImage x, x.Created)) →
        ∃ (im2 : docker.APIImages) (t2 : String),
          images2[i]? = some im2 ∧ firstRunnerTag im2.RepoTags = some t2 ∧
          (getLocalImage client2 cp).inspected = [t2]) := by
  obtain ⟨i, im, t, gi, gt, gall, gcp, gins, gret⟩ :=
    getLocalImage_development client cp images hlist hdev hover hpos
  refine ⟨i, im, t, gi, gt, gall, gcp, gins, gret, ?_⟩
  intro client2 images2 hlist2 hshape
  have hrun : isRunnerImage im = true := (firstRunnerTag_some_runner im t gt).1
  have himpos : 0 < im.Created := by
    obtain ⟨image, hmem, hr, hc⟩ := hpos
    obtain ⟨j, hj⟩ := List.mem_iff_getElem?.1 hmem
    have := (gall j image hj hr).1
    omega
  obtain ⟨y, hy, hyr, hyc⟩ := getElem?_of_same_shape images images2 hshape i im gi
  have hpos2 : ∃ image ∈ images2, isRunnerImage image = true ∧ 0 < image.Created :=
    ⟨y, List.getElem?_mem hy, hyr.trans hrun, by omega⟩
  obtain ⟨i2, im2, t2, ki, kt, kall, _, kins, _⟩ :=
    getLocalImage_development client2 cp images2 hlist2 hdev hover hpos2
  have hrun2 : isRunnerImage im2 = true := (firstRunnerTag_some_runner im2 t2 kt).1
  obtain ⟨x, hx, hxr, hxc⟩ := getElem?_of_same_shape images2 images hshape.symm i2 im2 ki
  have a1 := gall i2 x hx (hxr.trans hrun2)
  have a2 := kall i y hy (hyr.trans hrun)
  have hi : i2 = i := by
    rcases Nat.lt_trichotomy i2 i with h | h | h
    · have := a1.2 h
      omega
    · exact h
    · have := a2.2 h
      omega
  subst hi
  exact ⟨im2, t2, ki, kt, kins⟩

/-- Witness of C8: the image created at 30 is listed before another one created
at 30 and after an older one; its first runner tag is taken. -/
theorem C8_development_selects_first_newest_witness :
    ∃ (i : Nat) (im : docker.APIImages) (t : String),
      [(⟨["wercker/wercker-runner:latest"], 10⟩ : docker.APIImages),
        ⟨["alpine:3", "wercker/wercker-runner:dev", "wercker/wercker-runner:master"], 30⟩,
        ⟨["wercker/wercker-runner:master"], 30⟩][i]? = some im ∧
      firstRunnerTag im.RepoTags = some t ∧
      (∀ j x, [(⟨["wercker/wercker-runner:latest"], 10⟩ : docker.APIImages),
        ⟨["alpine:3", "wercker/wercker-runner:dev", "wercker/wercker-runner:master"], 30⟩,
        ⟨["wercker/wercker-runner:master"], 30⟩][j]? = some x → isRunnerImage x = true →
        x.Created ≤ im.Created ∧ (j < i → x.Created < im.Created)) ∧
      (getLocalImage ⟨.ok [⟨["wercker/wercker-runner:latest"], 10⟩,
        ⟨["alpine:3", "wercker/wercker-runner:dev", "wercker/wercker-runner:master"], 30⟩,
        ⟨["wercker/wercker-runner:master"], 30⟩], fun _ => .ok ⟨30⟩⟩ Sample.devNoPull).cp =
        { Sample.devNoPull with ImageName := t } ∧
      (getLocalImage ⟨.ok [⟨["wercker/wercker-runner:latest"], 10⟩,
        ⟨["alpine:3", "wercker/wercker-runner:dev", "wercker/wercker-runner:master"], 30⟩,
        ⟨["wercker/wercker-runner:master"], 30⟩], fun _ => .ok ⟨30⟩⟩ Sample.devNoPull).inspected =
        [t] ∧
      (getLocalImage ⟨.ok [⟨["wercker/wercker-runner:latest"], 10⟩,
        ⟨["alpine:3", "wercker/wercker-runner:dev", "wercker/wercker-runner:master"], 30⟩,
        ⟨["wercker/wercker-runner:master"], 30⟩], fun _ => .ok ⟨30⟩⟩ Sample.devNoPull).ret =
        (Except.ok ⟨30⟩ : Except String docker.Image).map some ∧
      (∀ (client2 : docker.Client) (images2 : List docker.APIImages),
        client2.ListImages = .ok images2 →
        images2.map (fun x => (isRunnerImage x, x.Created)) =
          [(⟨["wercker/wercker-runner:latest"], 10⟩ : docker.APIImages),
            ⟨["alpine:3", "wercker/wercker-runner:dev", "wercker/wercker-runner:master"], 30⟩,
            ⟨["wercker/wercker-runner:master"], 30⟩].map
            (fun x => (isRunnerImage x, x.Created)) →
        ∃ (im2 : docker.APIImages) (t2 : String),
          images2[i]? = some im2 ∧ firstRunnerTag im2.RepoTags = some t2 ∧
          (getLocalImage client2 Sample.devNoPull).inspected = [t2]) :=
  C8_development_selects_first_newest
    ⟨.ok [⟨["wercker/wercker-runner:latest"], 10⟩,
      ⟨["alpine:3", "wercker/wercker-runner:dev", "wercker/wercker-runner:master"], 30⟩,
      ⟨["wercker/wercker-runner:master"], 30⟩], fun _ => .ok ⟨30⟩⟩
    Sample.devNoPull _ rfl rfl rfl
    ⟨⟨["wercker/wercker-runner:latest"], 10⟩, List.mem_cons_self _ _, by decide, by decide⟩

/-- C9: the code at `ProdType = false`, `OverrideImage = "my/runner:dev"` and an
empty `ImageName`, for every Docker client: the local variable `imageName` takes
the override, but the reference inspected is the old (empty) `cp.ImageName` and
`cp.ImageName` stays empty. -/
theorem C9_override_not_inspected (client : docker.Client) :
    (getLocalImage client ⟨false, "my/runner:dev", "", false⟩).imageName = "my/runner:dev" ∧
    (getLocalImage client ⟨false, "my/runner:dev", "", false⟩).inspected = [""] ∧
    (getLocalImage client ⟨false, "my/runner:dev", "", false⟩).cp.ImageName = "" := by
  have h : getLocalImage client ⟨false, "my/runner:dev", "", false⟩ =
      inspectSelected client ⟨false, "my/runner:dev", "", false⟩ "my/runner:dev" := by
    unfold getLocalImage
    rw [if_pos (by decide)]
  rw [h]
  exact ⟨inspectSelected_imageName _ _ _, inspectSelected_inspected _ _ _,
    by rw [inspectSelected_cp]⟩

/-- C10: in production mode the override is not read: two runs of
`getLocalImage` that differ only in `OverrideImage` return the same image or
error, inspect the same references, and leave the same `ImageName`. -/
theorem C10_production_ignores_override (client : docker.Client) (cp : RunnerParams)
    (o1 o2 : String) (hprod : cp.ProdType = true) :
    (getLocalImage client { cp with OverrideImage := o1 }).ret =
      (getLocalImage client { cp with OverrideImage := o2 }).ret ∧
    (getLocalImage client { cp with OverrideImage := o1 }).inspected =
      (getLocalImage client { cp with OverrideImage := o2 }).inspected ∧
    (getLocalImage client { cp with OverrideImage := o1 }).cp.ImageName =
      (getLocalImage client { cp with OverrideImage := o2 }).cp.ImageName ∧
    (getLocalImage client { cp with OverrideImage := o1 }).imageName =
      (getLocalImage client { cp with OverrideImage := o2 }).imageName := by
  unfold getLocalImage
  simp only [hprod, Bool.not_true, Bool.false_and, Bool.false_eq_true, if_false, if_true]
  cases client.ListImages with
  | error e => exact ⟨rfl, rfl, rfl, rfl⟩
  | ok images =>
    simp only []
    split
    · exact ⟨rfl, rfl, rfl, rfl⟩
    · split
      · simp only [inspectSelected_ret, inspectSelected_inspected, inspectSelected_cp,
          inspectSelected_imageName, and_self]
      · split
        · exact ⟨rfl, rfl, rfl, rfl⟩
        · simp only [inspectSelected_ret, inspectSelected_inspected, inspectSelected_cp,
            inspectSelected_imageName, and_self]

/-- Witness of C10: a `latest` image in production, with and without an
override. -/
theorem C10_production_ignores_override_witness :
    (getLocalImage Sample.client ⟨true, "my/runner:dev", "", false⟩).ret =
      (getLocalImage Sample.client ⟨true, "", "", false⟩).ret ∧
    (getLocalImage Sample.client ⟨true, "my/runner:dev", "", false⟩).inspected =
      (getLocalImage Sample.client ⟨true, "", "", false⟩).inspected ∧
    (getLocalImage Sample.client ⟨true, "my/runner:dev", "", false⟩).cp.ImageName =
      (getLocalImage Sample.client ⟨true, "", "", false⟩).cp.ImageName ∧
    (getLocalImage Sample.client ⟨true, "my/runner:dev", "", false⟩).imageName =
      (getLocalImage Sample.client ⟨true, "", "", false⟩).imageName :=
  C10_production_ignores_override Sample.client ⟨true, "", "", false⟩ "my/runner:dev" "" rfl

end RunnerParams

/-! ## Edge cases of the selection and safety of the reconciliation -/

namespace RunnerParams

/-- The first scan over a list without any runner tag records no `imageName`. -/
theorem scanImages_no_runner (images : List docker.APIImages) (st : ScanState)
    (h : ∀ image ∈ images, ∀ tag ∈ image.RepoTags, strings.Contains tag runnerTag = false) :
    (scanImages images st).imageName = st.imageName := by
  rcases scanImages_first_newest images st with ⟨_, g2, _⟩ | ⟨i, im, t, gi, gt, _, _, _, _⟩
  · exact g2
  · exfalso
    have hm := List.getElem?_mem gi
    have hr := firstRunnerTag_some_runner im t gt
    unfold firstRunnerTag at gt
    have h2 := List.mem_of_find?_eq_some gt
    have := h im hm t h2
    rw [hr.2] at this
    exact absurd this (by decide)

/-- C13: with no override in effect (production mode, or an empty
`OverrideImage`), on a list in which no tag contains the runner family string
(the empty list included), `getLocalImage` returns no candidate and no error,
inspects nothing and leaves the parameters, `ImageName` included, unchanged. -/
theorem C13_no_runner_image_no_candidate (client : docker.Client) (cp : RunnerParams)
    (images : List docker.APIImages)
    (hlist : client.ListImages = .ok images)
    (hover : cp.ProdType = true ∨ cp.OverrideImage = "")
    (hnone : ∀ image ∈ images, ∀ tag ∈ image.RepoTags,
      strings.Contains tag runnerTag = false) :
    (getLocalImage client cp).ret = .ok none ∧
    (getLocalImage client cp).inspected = [] ∧
    (getLocalImage client cp).cp = cp := by
  have h1 : (scanImages images ⟨"", 0, ""⟩).imageName = "" :=
    scanImages_no_runner images _ hnone
  have h0 : (!cp.ProdType && cp.OverrideImage != "") = false := by
    rcases hover with h | h <;> simp [h]
  unfold getLocalImage
  simp only [h0, hlist, h1]
  simp

/-- Witness of C13: an empty local repository, in production mode. -/
theorem C13_no_runner_image_no_candidate_witness :
    (getLocalImage Sample.emptyClient ⟨true, "x", "kept", false⟩).ret = .ok none ∧
    (getLocalImage Sample.emptyClient ⟨true, "x", "kept", false⟩).inspected = [] ∧
    (getLocalImage Sample.emptyClient ⟨true, "x", "kept", false⟩).cp =
      ⟨true, "x", "kept", false⟩ :=
  C13_no_runner_image_no_candidate Sample.emptyClient ⟨true, "x", "kept", false⟩ []
    rfl (Or.inl rfl) (fun _ h => absurd h (List.not_mem_nil _))

/-- A `Fetch` decision of lines 137-169 needs `PullRemote` and names the
non-empty remote. -/
theorem checkImages_Fetch (cp : RunnerParams) (localImage : Option docker.Image)
    (R : RemoteImage) (n : String) (h : checkImages cp localImage R = .Fetch n) :
    cp.PullRemote = true ∧ n = R.ImageName ∧ R.ImageName ≠ "" := by
  unfold checkImages at h
  by_cases hR : R.ImageName = ""
  · simp only [hR, bne_self_eq_false, Bool.false_eq_true, if_false] at h
    cases localImage <;> simp [reportLocal] at h
  · have hR2 : (R.ImageName != "") = true := by simpa using hR
    simp only [hR2, if_true] at h
    cases hp : cp.PullRemote with
    | true =>
      split at h
      · simp only [Decision.Fetch.injEq] at h
        exact ⟨rfl, h.symm, hR⟩
      · split at h
        · simp only [hp, if_true, Decision.Fetch.injEq] at h
          exact ⟨rfl, h.symm, hR⟩
        · cases localImage <;> simp [reportLocal] at h
    | false =>
      simp only [hp, Bool.and_false, Bool.false_eq_true, if_false] at h
      split at h
      · simp at h
      · cases localImage <;> simp [reportLocal] at h

/-- C16: `CheckRegistryImages` ends in a pull only when `PullRemote` is set, and
then the pulled reference is the `ImageName` of the remote image, which is not
empty; so with `PullRemote` false the decision is never `Fetch`. -/
theorem C16_fetch_needs_PullRemote (env : Env) (cp : RunnerParams) (n : String)
    (h : (CheckRegistryImages env cp).1 = .Fetch n) :
    cp.PullRemote = true ∧
    ∃ R, env.getRemoteImage = .ok R ∧ R.ImageName = n ∧ n ≠ "" := by
  unfold CheckRegistryImages at h
  cases hc : env.NewClient with
  | error e => rw [hc] at h; simp at h
  | ok client =>
    rw [hc] at h
    simp only at h
    cases hl : (getLocalImage client cp).ret with
    | error e => rw [hl] at h; simp at h
    | ok localImage =>
      rw [hl] at h
      simp only at h
      cases hr : env.getRemoteImage with
      | error e => rw [hr] at h; simp at h
      | ok R =>
        rw [hr] at h
        simp only at h
        have := checkImages_Fetch _ _ _ _ h
        rw [getLocalImage_PullRemote] at this
        exact ⟨this.1, R, rfl, this.2.1.symm, this.2.1 ▸ this.2.2⟩

/-- Witness of C16: the pull of the sample remote image. -/
theorem C16_fetch_needs_PullRemote_witness :
    Sample.devPull.PullRemote = true ∧
    ∃ R, (Except.ok Sample.remote : Except String RemoteImage) = .ok R ∧
      R.ImageName = "iad.ocir.io/odx-pipelines/wercker/wercker-runner:v2" ∧
      "iad.ocir.io/odx-pipelines/wercker/wercker-runner:v2" ≠ "" :=
  C16_fetch_needs_PullRemote ⟨.ok Sample.client, .ok Sample.remote⟩ Sample.devPull
    "iad.ocir.io/odx-pipelines/wercker/wercker-runner:v2" rfl

end RunnerParams

/-! ## Idempotence -/

namespace RunnerParams

/-- The scan path of `getLocalImage` (lines 34-101), once the override test
failed and `ListImages` answered. -/
theorem getLocalImage_scan_eq (client : docker.Client) (cp : RunnerParams)
    (images : List docker.APIImages)
    (h0 : (!cp.ProdType && cp.OverrideImage != "") = false)
    (hlist : client.ListImages = .ok images) :
    getLocalImage client cp =
      if (scanImages images ⟨"", 0, ""⟩).imageName == "" then
        ⟨.ok none, cp, [], (scanImages images ⟨"", 0, ""⟩).imageName⟩
      else if cp.ProdType then
        if (scanImages images ⟨"", 0, ""⟩).taggedLatest != "" then
          inspectSelected client
            { cp with ImageName := (scanImages images ⟨"", 0, ""⟩).taggedLatest }
            (scanImages images ⟨"", 0, ""⟩).imageName
        else if (masterImages images ((scanImages images ⟨"", 0, ""⟩).latest, "")).2 == "" then
          ⟨.ok none, cp, [],
            (masterImages images ((scanImages images ⟨"", 0, ""⟩).latest, "")).2⟩
        else
          inspectSelected client cp
            (masterImages images ((scanImages images ⟨"", 0, ""⟩).latest, "")).2
      else
        inspectSelected client
          { cp with ImageName := (scanImages images ⟨"", 0, ""⟩).imageName }
          (scanImages images ⟨"", 0, ""⟩).imageName := by
  unfold getLocalImage
  simp only [h0, hlist, Bool.false_eq_true, if_false]

/-- A second call of `getLocalImage` on the parameters left by the first call
does exactly what the first call did. -/
theorem getLocalImage_idem (client : docker.Client) (cp : RunnerParams) :
    getLocalImage client (getLocalImage client cp).cp = getLocalImage client cp := by
  cases h0 : (!cp.ProdType && cp.OverrideImage != "") with
  | true =>
    have h1 : getLocalImage client cp = inspectSelected client cp cp.OverrideImage := by
      unfold getLocalImage
      rw [if_pos h0]
    rw [h1, inspectSelected_cp, h1]
  | false =>
    cases hlist : client.ListImages with
    | error e =>
      have h1 : getLocalImage client cp = ⟨.error e, cp, [], ""⟩ := by
        unfold getLocalImage
        simp only [h0, hlist, Bool.false_eq_true, if_false]
      rw [h1]
      exact h1
    | ok images =>
      have h1 := getLocalImage_scan_eq client cp images h0 hlist
      by_cases a : ((scanImages images ⟨"", 0, ""⟩).imageName == "") = true
      · rw [if_pos a] at h1
        rw [h1]
        simp only
        rw [h1]
      · rw [if_neg a] at h1
        cases hp : cp.ProdType with
        | true =>
          simp only [hp, if_true] at h1
          by_cases b : ((scanImages images ⟨"", 0, ""⟩).taggedLatest != "") = true
          · rw [if_pos b] at h1
            rw [h1, inspectSelected_cp]
            have h2 := getLocalImage_scan_eq client
              { cp with ImageName := (scanImages images ⟨"", 0, ""⟩).taggedLatest } images
              (by simpa using h0) hlist
            rw [if_neg a] at h2
            simp only [hp, if_true] at h2
            rw [if_pos b] at h2
            exact h2
          · rw [if_neg b] at h1
            by_cases c : ((masterImages images
                ((scanImages images ⟨"", 0, ""⟩).latest, "")).2 == "") = true
            · rw [if_pos c] at h1
              rw [h1]
              simp only
              rw [h1]
            · rw [if_neg c] at h1
              rw [h1, inspectSelected_cp, h1]
        | false =>
          simp only [hp, Bool.false_eq_true, if_false] at h1
          rw [h1, inspectSelected_cp]
          have h2 := getLocalImage_scan_eq client
            { cp with ImageName := (scanImages images ⟨"", 0, ""⟩).imageName } images
            (by simpa using h0) hlist
          rw [if_neg a] at h2
          simp only [hp, Bool.false_eq_true, if_false] at h2
          exact h2

/-- C14: running `CheckRegistryImages` a second time on the parameters left by
the first run, with the same local images and the same remote image, gives the
same decision and leaves the same parameters (so the same `ImageName`). -/
theorem C14_resolution_idempotent (env : Env) (cp : RunnerParams) :
    CheckRegistryImages env (CheckRegistryImages env cp).2 = CheckRegistryImages env cp := by
  unfold CheckRegistryImages
  cases hc : env.NewClient with
  | error e => rfl
  | ok client =>
    simp only
    have hi := getLocalImage_idem client cp
    cases hl : (getLocalImage client cp).ret with
    | error e =>
      simp only [hi, hl]
    | ok localImage =>
      simp only
      cases hr : env.getRemoteImage with
      | error e => simp only [hi, hl]
      | ok R => simp only [hi, hl]

end RunnerParams

/-! ## Images created at or before the epoch -/

namespace RunnerParams

/-- C15: the code in development mode without override, at a list whose only
image is a runner image created at 0, and at one created at -62135596800 (the
zero `time.Time`): no candidate is returned, nothing is inspected and
`ImageName` stays empty, although a runner image is listed. -/
theorem C15_epoch_image_not_selected :
    (getLocalImage ⟨.ok [⟨["wercker/wercker-runner:dev"], 0⟩], fun _ => .ok ⟨0⟩⟩
        ⟨false, "", "", false⟩).ret = .ok none ∧
    (getLocalImage ⟨.ok [⟨["wercker/wercker-runner:dev"], 0⟩], fun _ => .ok ⟨0⟩⟩
        ⟨false, "", "", false⟩).inspected = [] ∧
    (getLocalImage ⟨.ok [⟨["wercker/wercker-runner:dev"], 0⟩], fun _ => .ok ⟨0⟩⟩
        ⟨false, "", "", false⟩).cp.ImageName = "" ∧
    isRunnerImage ⟨["wercker/wercker-runner:dev"], 0⟩ = true ∧
    (getLocalImage ⟨.ok [⟨["wercker/wercker-runner:dev"], -62135596800⟩], fun _ => .ok ⟨0⟩⟩
        ⟨false, "", "", false⟩).ret = .ok none := by
  refine ⟨?_, ?_, ?_, ?_, ?_⟩ <;> rfl

end RunnerParams

/-! ## Step registry -/

namespace api

/-- C12: for every owner, name and version, when the registry answers with a
status code other than 200, `GetStepVersion` returns no step version and an
`APIError` carrying that status code, and hands nothing to the JSON decoder;
when the status is 200 and the body decodes, the result carries `step.summary`,
`step.tarballUrl` and `step.version.number`. -/
theorem C12_GetStepVersion_status (t : Transport) (r : WerckerStepRegistry)
    (owner name version : String) (resp : Response)
    (hget : t.Get (r.baseURL ++ "/api/steps/" ++ owner ++ "/" ++ name ++ "/" ++ version)
      r.authToken = .ok resp) :
    (resp.StatusCode ≠ 200 →
      (GetStepVersion t r owner name version).ret = .error (.APIError resp.StatusCode) ∧
      (GetStepVersion t r owner name version).decoded = []) ∧
    (resp.StatusCode = 200 → ∀ stepVersion, t.Decode resp.Body = .ok stepVersion →
      (GetStepVersion t r owner name version).ret =
        .ok ⟨stepVersion.Summary, stepVersion.TarballURL, stepVersion.Number⟩) := by
  constructor
  · intro hne
    have h1 : (resp.StatusCode != StatusOK) = true := by
      simpa [StatusOK] using hne
    unfold GetStepVersion
    simp only [hget, h1, if_true, and_self]
  · intro heq stepVersion hdec
    have h1 : (resp.StatusCode != StatusOK) = false := by
      simp [StatusOK, heq]
    unfold GetStepVersion
    simp only [hget, h1, hdec, Bool.false_eq_true, if_false]

/-- Witness of C12: a registry that answers 404 to every request, and one that
answers 200 with a body that decodes. -/
theorem C12_GetStepVersion_status_witness :
    ((GetStepVersion ⟨fun _ _ => .ok ⟨404, "not found"⟩, fun _ => .error "bad json"⟩
        ⟨"https://steps.example", "token"⟩ "wercker" "script" "1.0.0").ret =
      .error (.APIError 404) ∧
    (GetStepVersion ⟨fun _ _ => .ok ⟨404, "not found"⟩, fun _ => .error "bad json"⟩
        ⟨"https://steps.example", "token"⟩ "wercker" "script" "1.0.0").decoded = []) ∧
    (GetStepVersion ⟨fun _ _ => .ok ⟨200, "body"⟩, fun _ => .ok ⟨"a step", "https://t/x.tgz", "1.0.0"⟩⟩
        ⟨"https://steps.example", "token"⟩ "wercker" "script" "1.0.0").ret =
      .ok ⟨"a step", "https://t/x.tgz", "1.0.0"⟩ :=
  ⟨(C12_GetStepVersion_status ⟨fun _ _ => .ok ⟨404, "not found"⟩, fun _ => .error "bad json"⟩
    ⟨"https://steps.example", "token"⟩ "wercker" "script" "1.0.0" ⟨404, "not found"⟩
    rfl).1 (by decide),
   (C12_GetStepVersion_status
    ⟨fun _ _ => .ok ⟨200, "body"⟩, fun _ => .ok ⟨"a step", "https://t/x.tgz", "1.0.0"⟩⟩
    ⟨"https://steps.example", "token"⟩ "wercker" "script" "1.0.0" ⟨200, "body"⟩
    rfl).2 rfl ⟨"a step", "https://t/x.tgz", "1.0.0"⟩ rfl⟩

end api

/-! ## Production mode: what can be selected -/

namespace strings

theorem hasPrefixChars_of_append (s p q : List Char)
    (h : hasPrefixChars s (p ++ q) = true) : hasPrefixChars s p = true := by
  induction p generalizing s with
  | nil => cases s <;> rfl
  | cons a p ih =>
    cases s with
    | nil => simp [hasPrefixChars] at h
    | cons c cs =>
      simp only [List.cons_append, hasPrefixChars, Bool.and_eq_true] at h ⊢
      exact ⟨h.1, ih cs h.2⟩

theorem containsChars_of_append (s p q : List Char)
    (h : containsChars s (p ++ q) = true) : containsChars s p = true := by
  induction s with
  | nil =>
    simp only [containsChars, List.isEmpty_eq_true, List.append_eq_nil] at h ⊢
    exact h.1
  | cons c cs ih =>
    simp only [containsChars, Bool.or_eq_true] at h ⊢
    rcases h with h | h
    · exact Or.inl (hasPrefixChars_of_append _ _ _ h)
    · exact Or.inr (ih h)

end strings

namespace RunnerParams

/-- A tag that contains the master string contains the runner family string. -/
theorem contains_runnerTag_of_masterTag (slice : String)
    (h : strings.Contains slice masterTag = true) :
    strings.Contains slice runnerTag = true := by
  unfold strings.Contains at h ⊢
  have hm : masterTag.data = runnerTag.data ++ "master".data := by decide
  rw [hm] at h
  exact strings.containsChars_of_append _ _ _ h

theorem masterTags_unchanged (created : Int) (tags : List String) (st : Int × String)
    (h : ∀ tag ∈ tags, strings.Contains tag masterTag = true → created ≤ st.1) :
    masterTags created tags st = st := by
  induction tags with
  | nil => rfl
  | cons slice rest ih =>
    have hrest := ih (fun tag ht => h tag (List.mem_cons_of_mem _ ht))
    unfold masterTags
    cases hm : strings.Contains slice masterTag with
    | true =>
      have := h slice (List.mem_cons_self _ _) hm
      simp only [if_true, not_lt.2 this, if_false]
      exact hrest
    | false =>
      simp only [Bool.false_eq_true, if_false]
      exact hrest

theorem masterImages_unchanged (images : List docker.APIImages) (st : Int × String)
    (h : ∀ image ∈ images, ∀ tag ∈ image.RepoTags,
      strings.Contains tag masterTag = true → image.Created ≤ st.1) :
    masterImages images st = st := by
  induction images with
  | nil => rfl
  | cons image rest ih =>
    unfold masterImages
    rw [masterTags_unchanged _ _ _ (h image (List.mem_cons_self _ _))]
    exact ih (fun im him => h im (List.mem_cons_of_mem _ him))

/-- After the first scan `latest` is at least the `Created` of every runner
image. -/
theorem scanImages_latest_ge (images : List docker.APIImages) (st : ScanState)
    (image : docker.APIImages) (hmem : image ∈ images) (hr : isRunnerImage image = true) :
    image.Created ≤ (scanImages images st).latest := by
  rcases scanImages_first_newest images st with ⟨g1, _, g3⟩ | ⟨i, im, t, _, _, _, g1, _, gall⟩
  · rw [g1]
    exact g3 image hmem hr
  · rw [g1]
    obtain ⟨j, hj⟩ := List.mem_iff_getElem?.1 hmem
    exact (gall j image hj hr).1

/-- The second scan, started from the `latest` left by the first scan, records
nothing. -/
theorem masterImages_after_scan (images : List docker.APIImages) (st : ScanState) :
    masterImages images ((scanImages images st).latest, "") =
      ((scanImages images st).latest, "") := by
  apply masterImages_unchanged
  intro image hmem tag htag hm
  apply scanImages_latest_ge images st image hmem
  unfold isRunnerImage
  rw [List.any_eq_true]
  exact ⟨tag, htag, contains_runnerTag_of_masterTag tag hm⟩

end RunnerParams

namespace RunnerParams

/-- The tag loop of the first scan either keeps `taggedLatest` or sets it to a
tag of the image that is a runner tag marked latest. -/
theorem scanTags_taggedLatest_mem (created : Int) (tags : List String) (st : ScanState) :
    (scanTags created tags st).taggedLatest = st.taggedLatest ∨
    ((scanTags created tags st).taggedLatest ∈ tags ∧
      isLatestTag (scanTags created tags st).taggedLatest = true) := by
  induction tags generalizing st with
  | nil => exact Or.inl rfl
  | cons slice rest ih =>
    unfold scanTags
    cases hr : strings.Contains slice runnerTag with
    | false =>
      simp only [Bool.false_eq_true, if_false]
      rcases ih st with h | h
      · exact Or.inl h
      · exact Or.inr ⟨List.mem_cons_of_mem _ h.1, h.2⟩
    | true =>
      simp only [if_true]
      cases hl : strings.Contains slice ":latest" with
      | false =>
        simp only [Bool.false_eq_true, if_false]
        split
        · exact Or.inl rfl
        · rcases ih st with h | h
          · exact Or.inl h
          · exact Or.inr ⟨List.mem_cons_of_mem _ h.1, h.2⟩
      | true =>
        simp only [if_true]
        have hs : isLatestTag slice = true := by
          unfold isLatestTag
          rw [hr, hl]
          rfl
        split
        · exact Or.inr ⟨List.mem_cons_self _ _, hs⟩
        · rcases ih { st with taggedLatest := slice } with h | h
          · right
            rw [h]
            exact ⟨List.mem_cons_self _ _, hs⟩
          · exact Or.inr ⟨List.mem_cons_of_mem _ h.1, h.2⟩

/-- The first scan either keeps `taggedLatest` or sets it to a tag of a listed
image that is a runner tag marked latest. -/
theorem scanImages_taggedLatest_mem (images : List docker.APIImages) (st : ScanState) :
    (scanImages images st).taggedLatest = st.taggedLatest ∨
    ((∃ image ∈ images, (scanImages images st).taggedLatest ∈ image.RepoTags) ∧
      isLatestTag (scanImages images st).taggedLatest = true) := by
  induction images generalizing st with
  | nil => exact Or.inl rfl
  | cons image rest ih =>
    unfold scanImages
    rcases ih (scanTags image.Created image.RepoTags st) with h | ⟨⟨im, him, ht⟩, hl⟩
    · rcases scanTags_taggedLatest_mem image.Created image.RepoTags st with g | g
      · exact Or.inl (h.trans g)
      · right
        rw [h]
        exact ⟨⟨image, List.mem_cons_self _ _, g.1⟩, g.2⟩
    · exact Or.inr ⟨⟨im, List.mem_cons_of_mem _ him, ht⟩, hl⟩

/-- Production mode: either nothing is selected, or the `taggedLatest` of the
first scan is stored in `ImageName` and inspected. -/
theorem getLocalImage_production (client : docker.Client) (cp : RunnerParams)
    (images : List docker.APIImages)
    (hlist : client.ListImages = .ok images)
    (hprod : cp.ProdType = true) :
    ((getLocalImage client cp).ret = .ok none ∧
      (getLocalImage client cp).inspected = [] ∧
      (getLocalImage client cp).cp = cp) ∨
    ((scanImages images ⟨"", 0, ""⟩).imageName ≠ "" ∧
      (scanImages images ⟨"", 0, ""⟩).taggedLatest ≠ "" ∧
      (getLocalImage client cp).inspected = [(scanImages images ⟨"", 0, ""⟩).taggedLatest] ∧
      (getLocalImage client cp).cp =
        { cp with ImageName := (scanImages images ⟨"", 0, ""⟩).taggedLatest } ∧
      (getLocalImage client cp).ret =
        (client.InspectImage (scanImages images ⟨"", 0, ""⟩).taggedLatest).map some) := by
  have h1 := getLocalImage_scan_eq client cp images (by simp [hprod]) hlist
  simp only [hprod, if_true, masterImages_after_scan] at h1
  by_cases a : (scanImages images ⟨"", 0, ""⟩).imageName = ""
  · left
    rw [h1]
    simp [a]
  · by_cases b : (scanImages images ⟨"", 0, ""⟩).taggedLatest = ""
    · left
      rw [h1]
      simp [a, b]
    · right
      have h2 : getLocalImage client cp = inspectSelected client
          { cp with ImageName := (scanImages images ⟨"", 0, ""⟩).taggedLatest }
          (scanImages images ⟨"", 0, ""⟩).imageName := by
        rw [h1]
        simp [a, b, hprod]
      rw [h2]
      exact ⟨a, b, inspectSelected_inspected _ _ _, inspectSelected_cp _ _ _,
        inspectSelected_ret _ _ _⟩

/-- C17: in production mode the second (master) scan, started from the `latest`
left by the first scan, records nothing; and either `getLocalImage` selects
nothing, or the reference it stores in `ImageName` and inspects is the
`taggedLatest` of the first scan, a tag of a listed image that contains the
runner family string and `:latest`. -/
theorem C17_production_selects_only_first_scan_latest (client : docker.Client)
    (cp : RunnerParams) (images : List docker.APIImages)
    (hlist : client.ListImages = .ok images)
    (hprod : cp.ProdType = true) :
    masterImages images ((scanImages images ⟨"", 0, ""⟩).latest, "") =
      ((scanImages images ⟨"", 0, ""⟩).latest, "") ∧
    (((getLocalImage client cp).ret = .ok none ∧
        (getLocalImage client cp).inspected = [] ∧
        (getLocalImage client cp).cp = cp) ∨
      (∃ t, t = (scanImages images ⟨"", 0, ""⟩).taggedLatest ∧
        (getLocalImage client cp).inspected = [t] ∧
        (getLocalImage client cp).cp.ImageName = t ∧
        strings.Contains t runnerTag = true ∧
        strings.Contains t ":latest" = true ∧
        ∃ image ∈ images, t ∈ image.RepoTags)) := by
  refine ⟨masterImages_after_scan images _, ?_⟩
  rcases getLocalImage_production client cp images hlist hprod with h | ⟨_, b, hi, hc, _⟩
  · exact Or.inl h
  · right
    rcases scanImages_taggedLatest_mem images ⟨"", 0, ""⟩ with g | ⟨gm, gl⟩
    · exact absurd g b
    · unfold isLatestTag at gl
      rw [Bool.and_eq_true] at gl
      exact ⟨_, rfl, hi, by rw [hc], gl.1, gl.2, gm⟩

/-- Witness of C17: a `master` image newer than the `latest` image. -/
theorem C17_production_selects_only_first_scan_latest_witness :
    masterImages [⟨["wercker/wercker-runner:latest"], 10⟩, ⟨["wercker/wercker-runner:master"], 20⟩]
        ((scanImages [⟨["wercker/wercker-runner:latest"], 10⟩,
          ⟨["wercker/wercker-runner:master"], 20⟩] ⟨"", 0, ""⟩).latest, "") =
      ((scanImages [⟨["wercker/wercker-runner:latest"], 10⟩,
          ⟨["wercker/wercker-runner:master"], 20⟩] ⟨"", 0, ""⟩).latest, "") ∧
    (((getLocalImage ⟨.ok [⟨["wercker/wercker-runner:latest"], 10⟩,
          ⟨["wercker/wercker-runner:master"], 20⟩], fun _ => .ok ⟨10⟩⟩
          ⟨true, "", "", false⟩).ret = .ok none ∧
        (getLocalImage ⟨.ok [⟨["wercker/wercker-runner:latest"], 10⟩,
          ⟨["wercker/wercker-runner:master"], 20⟩], fun _ => .ok ⟨10⟩⟩
          ⟨true, "", "", false⟩).inspected = [] ∧
        (getLocalImage ⟨.ok [⟨["wercker/wercker-runner:latest"], 10⟩,
          ⟨["wercker/wercker-runner:master"], 20⟩], fun _ => .ok ⟨10⟩⟩
          ⟨true, "", "", false⟩).cp = ⟨true, "", "", false⟩) ∨
      (∃ t, t = (scanImages [⟨["wercker/wercker-runner:latest"], 10⟩,
          ⟨["wercker/wercker-runner:master"], 20⟩] ⟨"", 0, ""⟩).taggedLatest ∧
        (getLocalImage ⟨.ok [⟨["wercker/wercker-runner:latest"], 10⟩,
          ⟨["wercker/wercker-runner:master"], 20⟩], fun _ => .ok ⟨10⟩⟩
          ⟨true, "", "", false⟩).inspected = [t] ∧
        (getLocalImage ⟨.ok [⟨["wercker/wercker-runner:latest"], 10⟩,
          ⟨["wercker/wercker-runner:master"], 20⟩], fun _ => .ok ⟨10⟩⟩
          ⟨true, "", "", false⟩).cp.ImageName = t ∧
        strings.Contains t runnerTag = true ∧
        strings.Contains t ":latest" = true ∧
        ∃ image ∈ [(⟨["wercker/wercker-runner:latest"], 10⟩ : docker.APIImages),
          ⟨["wercker/wercker-runner:master"], 20⟩], t ∈ image.RepoTags)) :=
  C17_production_selects_only_first_scan_latest
    ⟨.ok [⟨["wercker/wercker-runner:latest"], 10⟩, ⟨["wercker/wercker-runner:master"], 20⟩],
      fun _ => .ok ⟨10⟩⟩
    ⟨true, "", "", false⟩ _ rfl rfl

end RunnerParams

namespace RunnerParams

/-- C11, the claim as stated fails: in production mode, on a list whose only
image carries the tag `wercker/wercker-runner:latest-rc1`, that reference is
selected, stored in `ImageName` and inspected, although its tag is neither
exactly `latest` nor exactly `master`. -/
theorem C11_inexact_latest_tag_selected :
    (getLocalImage ⟨.ok [⟨["wercker/wercker-runner:latest-rc1"], 10⟩], fun _ => .ok ⟨10⟩⟩
        ⟨true, "", "", false⟩).inspected = ["wercker/wercker-runner:latest-rc1"] ∧
    (getLocalImage ⟨.ok [⟨["wercker/wercker-runner:latest-rc1"], 10⟩], fun _ => .ok ⟨10⟩⟩
        ⟨true, "", "", false⟩).cp.ImageName = "wercker/wercker-runner:latest-rc1" ∧
    (getLocalImage ⟨.ok [⟨["wercker/wercker-runner:latest-rc1"], 10⟩], fun _ => .ok ⟨10⟩⟩
        ⟨true, "", "", false⟩).ret = .ok (some ⟨10⟩) ∧
    strings.HasSuffix "wercker/wercker-runner:latest-rc1" ":latest" = false ∧
    strings.HasSuffix "wercker/wercker-runner:latest-rc1" ":master" = false := by
  refine ⟨?_, ?_, ?_, ?_, ?_⟩ <;> rfl

/-- C11, amended: in production mode every reference `getLocalImage` selects
(inspects) is a tag of a listed image that contains the runner family string
and contains `:latest` or the master string, and it is the new `ImageName`. -/
theorem C11_production_selects_marked_tag (client : docker.Client) (cp : RunnerParams)
    (images : List docker.APIImages) (t : String)
    (hlist : client.ListImages = .ok images)
    (hprod : cp.ProdType = true)
    (hsel : (getLocalImage client cp).inspected = [t]) :
    strings.Contains t runnerTag = true ∧
    (strings.Contains t ":latest" = true ∨ strings.Contains t masterTag = true) ∧
    (∃ image ∈ images, t ∈ image.RepoTags) ∧
    (getLocalImage client cp).cp.ImageName = t := by
  rcases getLocalImage_production client cp images hlist hprod with h | ⟨_, b, hi, hc, _⟩
  · rw [h.2.1] at hsel
    exact absurd hsel (by simp)
  · rw [hi] at hsel
    simp only [List.cons.injEq, and_true] at hsel
    rcases scanImages_taggedLatest_mem images ⟨"", 0, ""⟩ with g | ⟨gm, gl⟩
    · exact absurd g b
    · unfold isLatestTag at gl
      rw [Bool.and_eq_true] at gl
      rw [hsel] at gl gm hc
      exact ⟨gl.1, Or.inl gl.2, gm, by rw [hc]⟩

/-- Witness of C11 (amended): the sample `latest` image in production mode. -/
theorem C11_production_selects_marked_tag_witness :
    strings.Contains "wercker/wercker-runner:latest" runnerTag = true ∧
    (strings.Contains "wercker/wercker-runner:latest" ":latest" = true ∨
      strings.Contains "wercker/wercker-runner:latest" masterTag = true) ∧
    (∃ image ∈ [(⟨["wercker/wercker-runner:latest"], 5⟩ : docker.APIImages)],
      "wercker/wercker-runner:latest" ∈ image.RepoTags) ∧
    (getLocalImage Sample.client ⟨true, "", "", false⟩).cp.ImageName =
      "wercker/wercker-runner:latest" :=
  C11_production_selects_marked_tag Sample.client ⟨true, "", "", false⟩
    [⟨["wercker/wercker-runner:latest"], 5⟩] "wercker/wercker-runner:latest" rfl rfl rfl

end RunnerParams

/-! ## Production mode: the last tag marked latest -/

namespace RunnerParams

theorem isLatestTag_runner (slice : String) (h : isLatestTag slice = true) :
    strings.Contains slice runnerTag = true := by
  unfold isLatestTag at h
  rw [Bool.and_eq_true] at h
  exact h.1

/-- On the tags of an image with at most one runner tag, the tag loop of the
first scan leaves in `taggedLatest` the last tag marked latest, if there is one. -/
theorem scanTags_taggedLatest_last (created : Int) (tags : List String) (st : ScanState)
    (h : (tags.filter (fun slice => strings.Contains slice runnerTag)).length ≤ 1) :
    (scanTags created tags st).taggedLatest =
      ((tags.filter isLatestTag).getLast?).getD st.taggedLatest := by
  induction tags generalizing st with
  | nil => rfl
  | cons slice rest ih =>
    cases hr : strings.Contains slice runnerTag with
    | false =>
      have hl : isLatestTag slice = false := by
        unfold isLatestTag
        rw [hr]
        rfl
      have h2 : (rest.filter (fun slice => strings.Contains slice runnerTag)).length ≤ 1 := by
        simpa [List.filter_cons, hr] using h
      unfold scanTags
      simp only [hr, Bool.false_eq_true, if_false, List.filter_cons, hl]
      exact ih st h2
    | true =>
      have h2 : rest.filter (fun slice => strings.Contains slice runnerTag) = [] := by
        simp only [List.filter_cons, hr, if_true, List.length_cons] at h
        exact List.eq_nil_of_length_eq_zero (by omega)
      have h3 : ∀ tag ∈ rest, strings.Contains tag runnerTag = false := by
        intro tag ht
        have := List.filter_eq_nil_iff.1 h2 tag ht
        simpa using this
      have h4 : rest.filter isLatestTag = [] := by
        rw [List.filter_eq_nil_iff]
        intro tag ht hl
        have := h3 tag ht
        rw [isLatestTag_runner tag hl] at this
        exact absurd this (by decide)
      have h5 : ∀ st1 : ScanState, (scanTags created rest st1).taggedLatest = st1.taggedLatest :=
        fun st1 => scanTags_taggedLatest created rest st1
          (fun tag ht hrt => by rw [h3 tag ht] at hrt; exact absurd hrt (by decide))
      unfold scanTags
      simp only [hr, if_true, List.filter_cons, h4]
      cases hl : strings.Contains slice ":latest" with
      | false =>
        have hl2 : isLatestTag slice = false := by
          unfold isLatestTag
          rw [hr, hl]
          rfl
        simp only [hl2, Bool.false_eq_true, if_false, List.getLast?_nil, Option.getD_none]
        split
        · rfl
        · exact h5 st
      | true =>
        have hl2 : isLatestTag slice = true := by
          unfold isLatestTag
          rw [hr, hl]
          rfl
        simp only [hl2, if_true, List.getLast?_singleton, Option.getD_some]
        split
        · rfl
        · exact h5 _

theorem latestTags_cons (image : docker.APIImages) (rest : List docker.APIImages) :
    latestTags (image :: rest) = image.RepoTags.filter isLatestTag ++ latestTags rest := by
  unfold latestTags
  rw [List.flatMap_cons, List.filter_append]

/-- On a list of images with at most one runner tag each, the first scan leaves
in `taggedLatest` the last tag marked latest, if there is one. -/
theorem scanImages_taggedLatest_last (images : List docker.APIImages) (st : ScanState)
    (hone : ∀ image ∈ images, runnerTagCount image ≤ 1) :
    (scanImages images st).taggedLatest =
      ((latestTags images).getLast?).getD st.taggedLatest := by
  induction images generalizing st with
  | nil => rfl
  | cons image rest ih =>
    unfold scanImages
    rw [ih _ (fun im him => hone im (List.mem_cons_of_mem _ him)),
      scanTags_taggedLatest_last _ _ _ (hone image (List.mem_cons_self _ _)),
      latestTags_cons, List.getLast?_append]
    cases (latestTags rest).getLast? <;> rfl

/-- A tag marked latest is carried by a listed runner image. -/
theorem mem_latestTags (images : List docker.APIImages) (t : String)
    (h : t ∈ latestTags images) :
    isLatestTag t = true ∧ ∃ image ∈ images, t ∈ image.RepoTags ∧ isRunnerImage image = true := by
  unfold latestTags at h
  rw [List.mem_filter, List.mem_flatMap] at h
  obtain ⟨⟨image, him, ht⟩, hl⟩ := h
  refine ⟨hl, image, him, ht, ?_⟩
  unfold isRunnerImage
  rw [List.any_eq_true]
  exact ⟨t, ht, isLatestTag_runner t hl⟩

/-- With a runner image created after 0 in the list, the first scan records an
`imageName`. -/
theorem scanImages_imageName_ne (images : List docker.APIImages)
    (hpos : ∃ image ∈ images, isRunnerImage image = true ∧ 0 < image.Created) :
    (scanImages images ⟨"", 0, ""⟩).imageName ≠ "" := by
  rcases scanImages_first_newest images ⟨"", 0, ""⟩ with
    ⟨_, _, g3⟩ | ⟨i, im, t, _, gt, g2, _, _, _⟩
  · exfalso
    obtain ⟨image, hmem, hr, hc⟩ := hpos
    have := g3 image hmem hr
    simp only at this
    omega
  · rw [g2]
    exact contains_runnerTag_ne_empty t (firstRunnerTag_some_runner im t gt).2

/-- C18: in production mode, on a list in which every image carries at most one
runner tag and every runner image has a positive `Created`, if `t` is the last
runner tag marked latest in listing order, `getLocalImage` sets `ImageName` to
`t`, inspects `t` and returns the answer of that inspection; no other condition
on the `Created` values is needed. -/
theorem C18_production_last_latest_tag (client : docker.Client) (cp : RunnerParams)
    (images : List docker.APIImages) (t : String)
    (hlist : client.ListImages = .ok images)
    (hprod : cp.ProdType = true)
    (hone : ∀ image ∈ images, runnerTagCount image ≤ 1)
    (hpos : ∀ image ∈ images, isRunnerImage image = true → 0 < image.Created)
    (hlast : (latestTags images).getLast? = some t) :
    (getLocalImage client cp).cp = { cp with ImageName := t } ∧
    (getLocalImage client cp).inspected = [t] ∧
    (getLocalImage client cp).ret = (client.InspectImage t).map some := by
  have htl : (scanImages images ⟨"", 0, ""⟩).taggedLatest = t := by
    rw [scanImages_taggedLatest_last images _ hone, hlast]
    rfl
  obtain ⟨hlt, image, him, _, hrun⟩ :=
    mem_latestTags images t (List.mem_of_getLast?_eq_some hlast)
  have hne : (scanImages images ⟨"", 0, ""⟩).imageName ≠ "" :=
    scanImages_imageName_ne images ⟨image, him, hrun, hpos image him hrun⟩
  rcases getLocalImage_production client cp images hlist hprod with h | ⟨_, _, hi, hc, hr⟩
  · exfalso
    have h1 := getLocalImage_scan_eq client cp images (by simp [hprod]) hlist
    have ht : t ≠ "" := contains_runnerTag_ne_empty t (isLatestTag_runner t hlt)
    simp only [hprod, if_true, htl] at h1
    have h2 : (getLocalImage client cp).inspected = [t] := by
      rw [h1]
      simp only [beq_iff_eq, hne, if_false, bne_iff_ne, ne_eq, ht, not_false_eq_true, if_true]
      exact inspectSelected_inspected _ _ _
    rw [h.2.1] at h2
    exact absurd h2 (by simp)
  · rw [htl] at hi hc hr
    exact ⟨hc, hi, hr⟩

/-- Witness of C18: two images tagged `latest`, the older one listed last. -/
theorem C18_production_last_latest_tag_witness :
    (getLocalImage ⟨.ok [⟨["reg.a/wercker/wercker-runner:latest"], 50⟩,
        ⟨["wercker/wercker-runner:master"], 90⟩,
        ⟨["reg.b/wercker/wercker-runner:latest"], 20⟩], fun _ => .ok ⟨20⟩⟩
        ⟨true, "", "", false⟩).cp =
      { (⟨true, "", "", false⟩ : RunnerParams) with
        ImageName := "reg.b/wercker/wercker-runner:latest" } ∧
    (getLocalImage ⟨.ok [⟨["reg.a/wercker/wercker-runner:latest"], 50⟩,
        ⟨["wercker/wercker-runner:master"], 90⟩,
        ⟨["reg.b/wercker/wercker-runner:latest"], 20⟩], fun _ => .ok ⟨20⟩⟩
        ⟨true, "", "", false⟩).inspected = ["reg.b/wercker/wercker-runner:latest"] ∧
    (getLocalImage ⟨.ok [⟨["reg.a/wercker/wercker-runner:latest"], 50⟩,
        ⟨["wercker/wercker-runner:master"], 90⟩,
        ⟨["reg.b/wercker/wercker-runner:latest"], 20⟩], fun _ => .ok ⟨20⟩⟩
        ⟨true, "", "", false⟩).ret =
      (Except.ok ⟨20⟩ : Except String docker.Image).map some :=
  C18_production_last_latest_tag
    ⟨.ok [⟨["reg.a/wercker/wercker-runner:latest"], 50⟩,
      ⟨["wercker/wercker-runner:master"], 90⟩,
      ⟨["reg.b/wercker/wercker-runner:latest"], 20⟩], fun _ => .ok ⟨20⟩⟩
    ⟨true, "", "", false⟩ _ "reg.b/wercker/wercker-runner:latest" rfl rfl
    (by decide) (by decide) (by decide)

end RunnerParams
